import Mathlib

/-!
Shallow embedding of the okanjo-app-broker supervisor (OkanjoBroker) and its
worker runtime counterpart (OkanjoWorker), translated from the JavaScript
source. Worker ids are modelled as naturals (the source stringifies the
clustering facility's numeric ids purely for bookkeeping).
-/

set_option maxHeartbeats 1000000

/-- JavaScript `Array.prototype.indexOf`: index of the first occurrence of
`a` in `l`, or `-1` when `a` is absent. Used by the exit handler
(`this._workerIds[this.type].indexOf(id)`) and by `recycleWorkers`. -/
def jsIndexOf (l : List Nat) (a : Nat) : Int :=
  match l with
  | [] => -1
  | b :: rest =>
    if b = a then 0
    else
      let r := jsIndexOf rest a
      if r < 0 then -1 else r + 1

/-- JavaScript `Array.prototype.splice(start, 1)`: a negative `start` counts
back from the end of the array (clamped at 0), a `start` at or past the end
deletes nothing, and otherwise the single element at `start` is removed. -/
def jsSpliceDelete1 (l : List Nat) (start : Int) : List Nat :=
  let s : Nat := if start < 0 then ((l.length : Int) + start).toNat else min start.toNat l.length
  l.take s ++ l.drop (s + 1)

/-- The worker-id removal performed by the exit observer:
`this._workerIds[this.type].splice(this._workerIds[this.type].indexOf(id), 1)`. -/
def spliceOutId (l : List Nat) (id : Nat) : List Nat :=
  jsSpliceDelete1 l (jsIndexOf l id)

theorem jsIndexOf_of_not_mem {l : List Nat} {a : Nat} (h : a ∉ l) :
    jsIndexOf l a = -1 := by
  induction l with
  | nil => rfl
  | cons b rest ih =>
    have hba : b ≠ a := fun hba => h (hba ▸ List.mem_cons_self b rest)
    have hr : a ∉ rest := fun hm => h (List.mem_cons_of_mem b hm)
    simp only [jsIndexOf, if_neg hba, ih hr]
    norm_num

theorem jsIndexOf_spec {l : List Nat} {a : Nat} (h : a ∈ l) :
    ∃ k : Nat, jsIndexOf l a = (k : Int) ∧ k < l.length ∧
      l.take k ++ l.drop (k + 1) = l.erase a := by
  induction l with
  | nil => cases h
  | cons b rest ih =>
    by_cases hba : b = a
    · refine ⟨0, ?_, ?_, ?_⟩
      · simp [jsIndexOf, hba]
      · simp
      · subst hba
        simp [List.erase_cons_head]
    · have hm : a ∈ rest := by
        rcases List.mem_cons.mp h with h1 | h2
        · exact absurd h1.symm hba
        · exact h2
      obtain ⟨k, hk, hklt, hsplice⟩ := ih hm
      refine ⟨k + 1, ?_, ?_, ?_⟩
      · have : ¬ ((k : Int) < 0) := by omega
        simp only [jsIndexOf, if_neg hba, hk, if_neg this]
        push_cast
        ring
      · simpa using Nat.succ_lt_succ hklt
      · have herase : (b :: rest).erase a = b :: rest.erase a :=
          List.erase_cons_tail (not_beq_of_ne hba)
        simp [List.take_succ_cons, List.drop_succ_cons, herase, hsplice]

theorem spliceOutId_of_mem {l : List Nat} {id : Nat} (h : id ∈ l) :
    spliceOutId l id = l.erase id := by
  obtain ⟨k, hk, hklt, hsplice⟩ := jsIndexOf_spec h
  have hnonneg : ¬ ((k : Int) < 0) := by omega
  simp only [spliceOutId, jsSpliceDelete1, hk, if_neg hnonneg, Int.toNat_natCast,
    Nat.min_eq_left (Nat.le_of_lt hklt)]
  exact hsplice

theorem spliceOutId_of_not_mem {l : List Nat} {id : Nat} (h : id ∉ l) (hne : l ≠ []) :
    spliceOutId l id = l.dropLast := by
  have hlen : 1 ≤ l.length := List.length_pos.mpr hne
  have hidx : jsIndexOf l id = -1 := jsIndexOf_of_not_mem h
  have hneg : (-1 : Int) < 0 := by norm_num
  have hs : ((l.length : Int) + (-1)).toNat = l.length - 1 := by omega
  simp only [spliceOutId, jsSpliceDelete1, hidx, if_pos hneg, hs]
  have hdrop : l.drop (l.length - 1 + 1) = [] := by
    apply List.drop_eq_nil_of_le
    omega
  rw [hdrop, List.append_nil, ← List.dropLast_eq_take]

theorem length_spliceOutId_of_mem {l : List Nat} {id : Nat} (h : id ∈ l) :
    (spliceOutId l id).length = l.length - 1 := by
  rw [spliceOutId_of_mem h]
  exact List.length_erase_of_mem h

theorem spliceOutId_cons_self (id : Nat) (t : List Nat) :
    spliceOutId (id :: t) id = t := by
  rw [spliceOutId_of_mem (List.mem_cons_self id t), List.erase_cons_head]

theorem jsIndexOf_nonneg_iff (l : List Nat) (a : Nat) :
    0 ≤ jsIndexOf l a ↔ a ∈ l := by
  constructor
  · intro hle
    by_contra hmem
    rw [jsIndexOf_of_not_mem hmem] at hle
    omega
  · intro hmem
    obtain ⟨k, hk, _, _⟩ := jsIndexOf_spec hmem
    rw [hk]
    positivity

/-- JavaScript value shape, as far as the broker inspects inbound messages:
the message handler only checks `typeof msg === "object"` and reads
`msg.type`, so strings, numbers, booleans and objects (field lists) are
modelled. -/
inductive JsValue where
  | str (s : String)
  | num (n : Int)
  | boolV (b : Bool)
  | obj (fields : List (String × JsValue))

/-- True exactly when `typeof msg === "object" && msg.type === "ops"` holds:
the payload is an object whose `type` field is the string `"ops"`. -/
def isOpsEnvelope (msg : JsValue) : Bool :=
  match msg with
  | JsValue.obj fields =>
    match fields.lookup "type" with
    | some (JsValue.str s) => s == "ops"
    | _ => false
  | _ => false

/-- Events the broker emits (`this.emit(...)` calls in OkanjoBroker):
exit events carry the `{ id, code, signal }` payload fields, message events
carry the raw payload and the originating worker handle's id. -/
inductive BrokerEvent where
  | worker_ended (id : Nat) (code : Int) (signal : Option String)
  | worker_death (id : Nat) (code : Int) (signal : Option String)
  | worker_ops (msg : JsValue) (workerId : Nat)
  | worker_message (msg : JsValue) (workerId : Nat)

/-- Broker bookkeeping state: `workerIds` is `this._workerIds[this.type]`
(ids in spawn order, pushed on fork), `drainOpen` the respawn gate, and
`nextId` the clustering facility's next fresh worker id. -/
structure BrokerState where
  workerIds : List Nat
  drainOpen : Bool
  nextId : Nat

/-- One `_spawnWorker` call as far as bookkeeping goes: fork yields a fresh
id, which is pushed onto `this._workerIds[this.type]`. -/
def spawnWorker (s : BrokerState) : BrokerState :=
  { s with workerIds := s.workerIds ++ [s.nextId], nextId := s.nextId + 1 }

/-- Iterated spawning, as in `_init`'s `for` loop over `workerCount` and
`resumeWorkers`' top-up loop. -/
def spawnLoop : Nat → BrokerState → BrokerState
  | 0, s => s
  | n + 1, s => spawnLoop n (spawnWorker s)

/-- Broker construction (`_init`): empty id list, `drainOpen = false`, then
`workerCount` spawns. Cluster worker ids start at 1. -/
def initBroker (workerCount : Nat) : BrokerState :=
  spawnLoop workerCount { workerIds := [], drainOpen := false, nextId := 1 }

/-- Payload of one `exit` event observed for a worker: the id, the exit code
and signal, and the handle's `exitedAfterDisconnect` flag. -/
structure ExitEvent where
  id : Nat
  code : Int
  signal : Option String
  exitedAfterDisconnect : Bool

/-- Result of running a broker event handler: the updated bookkeeping state,
the events emitted, and how many `app.report` diagnostics were filed. -/
structure ExitOutcome where
  state : BrokerState
  events : List BrokerEvent
  reports : Nat

/-- The `exit` observer wired by `_spawnWorker` (OkanjoBroker lines 86-112):
remove the id via `splice(indexOf(id), 1)`, then, when the application is not
globally shutting down and the drain gate is closed, classify the exit by
`exitedAfterDisconnect` (intentional bounce vs crash, the latter also filing
an `app.report` diagnostic) and spawn a replacement; otherwise emit
`worker_ended` and do not respawn. -/
def onExit (gracefulShutdown : Bool) (s : BrokerState) (e : ExitEvent) : ExitOutcome :=
  let s1 : BrokerState := { s with workerIds := spliceOutId s.workerIds e.id }
  if !gracefulShutdown && !s.drainOpen then
    if e.exitedAfterDisconnect then
      { state := spawnWorker s1
        events := [BrokerEvent.worker_ended e.id e.code e.signal]
        reports := 0 }
    else
      { state := spawnWorker s1
        events := [BrokerEvent.worker_death e.id e.code e.signal]
        reports := 1 }
  else
    { state := s1
      events := [BrokerEvent.worker_ended e.id e.code e.signal]
      reports := 0 }

/-- Sequential processing of a list of worker exits through the exit
observer, accumulating emitted events and diagnostics. -/
def processExits (gracefulShutdown : Bool) : BrokerState → List ExitEvent → ExitOutcome
  | s, [] => { state := s, events := [], reports := 0 }
  | s, e :: rest =>
    let r := onExit gracefulShutdown s e
    let r2 := processExits gracefulShutdown r.state rest
    { state := r2.state, events := r.events ++ r2.events, reports := r.reports + r2.reports }

/-- The `message` observer wired by `_spawnWorker` (lines 141-149): an ops
envelope is emitted as `worker_ops`, every other payload is forwarded
verbatim as `worker_message`, both carrying the originating handle. -/
def onMessage (workerId : Nat) (msg : JsValue) : BrokerEvent :=
  if isOpsEnvelope msg then BrokerEvent.worker_ops msg workerId
  else BrokerEvent.worker_message msg workerId

/-- The `recycleWorkers` selection (lines 190-199): iterate the clustering
facility's global registry and bounce exactly the ids with
`this._workerIds[this.type].indexOf(id) >= 0`; the result lists the ids this
broker bounces. -/
def recycleWorkers (registry : List Nat) (mine : List Nat) : List Nat :=
  registry.filter (fun id => decide (0 ≤ jsIndexOf mine id))

/-- The `drainWorkers` operation (lines 204-207): set `drainOpen = true`,
then invoke `recycleWorkers` (which bounces workers but mutates no broker
bookkeeping); the second component lists the ids bounced. -/
def drainWorkers (registry : List Nat) (s : BrokerState) : BrokerState × List Nat :=
  let s1 : BrokerState := { s with drainOpen := true }
  (s1, recycleWorkers registry s1.workerIds)

/-- The `resumeWorkers` operation (lines 212-219): set `drainOpen = false`,
then spawn from index `workerIds.length` up to `workerCount`, i.e.
`workerCount - workerIds.length` fresh workers (none when the pool is
already at or above `workerCount`). -/
def resumeWorkers (workerCount : Nat) (s : BrokerState) : BrokerState :=
  spawnLoop (workerCount - s.workerIds.length) { s with drainOpen := false }

/-- Reachable broker states, starting from construction and following the
broker-driven transitions: a worker exit (for an id actually in the pool;
the clustering facility fires `exit` at most once per spawned worker, and
the application-level `gracefulShutdown` flag is off), a drain, or a
resume. -/
inductive Reachable (N : Nat) : BrokerState → Prop where
  | init : Reachable N (initBroker N)
  | exit (s : BrokerState) (e : ExitEvent) (hs : Reachable N s)
      (hmem : e.id ∈ s.workerIds) : Reachable N (onExit false s e).state
  | drain (s : BrokerState) (registry : List Nat) (hs : Reachable N s) :
      Reachable N (drainWorkers registry s).fst
  | resume (s : BrokerState) (hs : Reachable N s) : Reachable N (resumeWorkers N s)

/-- Deadline armed by `_bounceWorker` (line 168): 2000 ms before the
force-kill. -/
def bounceTimeoutMs : Nat := 2000

/-- Follow-up delay armed by the `disconnect` observer (line 130): 1000 ms
after disconnect, kill the worker if it is still alive. -/
def disconnectFollowupMs : Nat := 1000

/-- Force-kill times produced for one bounced worker (bounce at time 0).
The `_bounceWorker` deadline timer fires at `bounceTimeoutMs` and kills
unconditionally, unless the `disconnect` observer cleared it first (which
happens exactly when disconnect fires strictly before the deadline). The
`disconnect` observer additionally arms a follow-up at
`disconnectAt + disconnectFollowupMs` that kills the worker exactly when
`worker.isDead()` is still false at that moment. -/
def bounceKillTimes (disconnectAt : Option Nat) (isDeadAt : Nat → Bool) : List Nat :=
  (match disconnectAt with
   | none => [bounceTimeoutMs]
   | some d => if d < bounceTimeoutMs then [] else [bounceTimeoutMs]) ++
  (match disconnectAt with
   | none => []
   | some d =>
     if isDeadAt (d + disconnectFollowupMs) then [] else [d + disconnectFollowupMs])

/-- Liveness trace of a worker that never dies on its own; used to evaluate
the bounce model on concrete scenarios. -/
def neverDead : Nat → Bool := fun _ => false

/-- The directive string `_bounceWorker` sends to a worker to begin graceful
shutdown (`worker.send('suicide')`, line 164). -/
def bounceDirective : String := "suicide"

/-- The worker runtime's `process.on('message', ...)` listener (OkanjoWorker
lines 26-30): returns whether a given parent message triggers
`prepareForShutdown()`. -/
def workerInvokesShutdownOn (message : String) : Bool :=
  message == "suicide"

/-- Observable actions of the worker runtime's shutdown machinery. -/
inductive WorkerAction where
  | unbindSignals
  | exitProcess (code : Nat)
deriving DecidableEq

/-- Default `shutdown()` (OkanjoWorker lines 85-87): terminate the process
with success status. -/
def workerShutdown : List WorkerAction := [WorkerAction.exitProcess 0]

/-- Default `prepareForShutdown()` (OkanjoWorker lines 71-79): unbind the
termination-signal handlers, then call `shutdown()`. -/
def workerPrepareForShutdown : List WorkerAction :=
  WorkerAction.unbindSignals :: workerShutdown

/-- Triggers that can start the worker runtime's shutdown path. -/
inductive ShutdownTrigger where
  | directive (message : String)
  | sigint
  | sigterm

/-- What the worker runtime does for each trigger: the message listener runs
`prepareForShutdown()` exactly on the `"suicide"` directive, and the SIGINT
and SIGTERM handlers installed by `_bindProcessSignals` (lines 46-57) each
call `prepareForShutdown` as well. -/
def handleTrigger : ShutdownTrigger → List WorkerAction
  | ShutdownTrigger.directive m =>
    if workerInvokesShutdownOn m then workerPrepareForShutdown else []
  | ShutdownTrigger.sigint => workerPrepareForShutdown
  | ShutdownTrigger.sigterm => workerPrepareForShutdown

theorem spawnLoop_workerIds_length (n : Nat) :
    ∀ s : BrokerState, (spawnLoop n s).workerIds.length = s.workerIds.length + n := by
  induction n with
  | zero => intro s; simp [spawnLoop]
  | succ m ih =>
    intro s
    rw [spawnLoop, ih (spawnWorker s)]
    simp only [spawnWorker, List.length_append, List.length_singleton]
    omega

theorem spawnLoop_drainOpen (n : Nat) :
    ∀ s : BrokerState, (spawnLoop n s).drainOpen = s.drainOpen := by
  induction n with
  | zero => intro s; rfl
  | succ m ih => intro s; rw [spawnLoop, ih (spawnWorker s)]; rfl

theorem spawnLoop_nextId (n : Nat) :
    ∀ s : BrokerState, (spawnLoop n s).nextId = s.nextId + n := by
  induction n with
  | zero => intro s; simp [spawnLoop]
  | succ m ih =>
    intro s
    rw [spawnLoop, ih (spawnWorker s)]
    simp only [spawnWorker]
    omega

theorem onExit_state_drainOpen (gs : Bool) (s : BrokerState) (e : ExitEvent) :
    (onExit gs s e).state.drainOpen = s.drainOpen := by
  unfold onExit
  split
  · split <;> simp [spawnWorker]
  · simp

theorem onExit_drain_eq (gs : Bool) (s : BrokerState) (e : ExitEvent)
    (hd : s.drainOpen = true) :
    onExit gs s e =
      { state := { s with workerIds := spliceOutId s.workerIds e.id }
        events := [BrokerEvent.worker_ended e.id e.code e.signal]
        reports := 0 } := by
  simp [onExit, hd]

theorem onExit_crash_eq (s : BrokerState) (e : ExitEvent) (hd : s.drainOpen = false)
    (hc : e.exitedAfterDisconnect = false) :
    onExit false s e =
      { state := spawnWorker { s with workerIds := spliceOutId s.workerIds e.id }
        events := [BrokerEvent.worker_death e.id e.code e.signal]
        reports := 1 } := by
  simp [onExit, hd, hc]

theorem onExit_graceful_eq (s : BrokerState) (e : ExitEvent) (hd : s.drainOpen = false)
    (hc : e.exitedAfterDisconnect = true) :
    onExit false s e =
      { state := spawnWorker { s with workerIds := spliceOutId s.workerIds e.id }
        events := [BrokerEvent.worker_ended e.id e.code e.signal]
        reports := 0 } := by
  simp [onExit, hd, hc]

theorem onExit_nogate_length (s : BrokerState) (e : ExitEvent) (hd : s.drainOpen = false)
    (hmem : e.id ∈ s.workerIds) :
    (onExit false s e).state.workerIds.length = s.workerIds.length := by
  have h1 : 1 ≤ s.workerIds.length := List.length_pos.mpr (List.ne_nil_of_mem hmem)
  have h2 := length_spliceOutId_of_mem hmem
  cases he : e.exitedAfterDisconnect
  · rw [onExit_crash_eq s e hd he]
    simp [spawnWorker, h2]
    omega
  · rw [onExit_graceful_eq s e hd he]
    simp [spawnWorker, h2]
    omega

theorem onExit_drain_length (gs : Bool) (s : BrokerState) (e : ExitEvent)
    (hd : s.drainOpen = true) (hmem : e.id ∈ s.workerIds) :
    (onExit gs s e).state.workerIds.length = s.workerIds.length - 1 := by
  rw [onExit_drain_eq gs s e hd]
  exact length_spliceOutId_of_mem hmem

theorem reachable_invariant (N : Nat) :
    ∀ s : BrokerState, Reachable N s →
      s.workerIds.length ≤ N ∧ (s.drainOpen = false → s.workerIds.length = N) := by
  intro s h
  induction h with
  | init =>
    have hlen : (initBroker N).workerIds.length = N := by
      simp [initBroker, spawnLoop_workerIds_length]
    exact ⟨hlen.le, fun _ => hlen⟩
  | exit t e ht hmem ih =>
    have hdrain := onExit_state_drainOpen false t e
    cases hd : t.drainOpen
    · have hlen := onExit_nogate_length t e hd hmem
      have hN : t.workerIds.length = N := ih.2 hd
      rw [hlen, hN]
      exact ⟨le_refl N, fun _ => rfl⟩
    · have hlen := onExit_drain_length false t e hd hmem
      have hle := ih.1
      constructor
      · omega
      · intro hfalse
        simp [hfalse, hd] at hdrain
  | drain t registry ht ih =>
    constructor
    · exact ih.1
    · intro hfalse
      simp [drainWorkers] at hfalse
  | resume t ht ih =>
    have hlen : (resumeWorkers N t).workerIds.length =
        t.workerIds.length + (N - t.workerIds.length) := by
      simp [resumeWorkers, spawnLoop_workerIds_length]
    have hle : t.workerIds.length ≤ N := ih.1
    constructor
    · rw [hlen]; omega
    · intro _; rw [hlen]; omega

theorem processExits_drain (gs : Bool) :
    ∀ (exits : List ExitEvent) (s : BrokerState),
      s.drainOpen = true → exits.map ExitEvent.id = s.workerIds →
      (processExits gs s exits).state =
        { workerIds := [], drainOpen := true, nextId := s.nextId } ∧
      (processExits gs s exits).events =
        exits.map (fun e => BrokerEvent.worker_ended e.id e.code e.signal) ∧
      (processExits gs s exits).reports = 0 := by
  intro exits
  induction exits with
  | nil =>
    intro s hd hmap
    simp only [List.map_nil] at hmap
    obtain ⟨w, d, n⟩ := s
    simp only at hd hmap
    subst hd
    rw [← hmap]
    exact ⟨rfl, rfl, rfl⟩
  | cons e rest ih =>
    intro s hd hmap
    simp only [List.map_cons] at hmap
    have hW : s.workerIds = e.id :: List.map ExitEvent.id rest := hmap.symm
    have hsplice : spliceOutId s.workerIds e.id = List.map ExitEvent.id rest := by
      rw [hW, spliceOutId_cons_self]
    have honexit := onExit_drain_eq gs s e hd
    have hd1 : ({ s with workerIds := spliceOutId s.workerIds e.id } : BrokerState).drainOpen
        = true := hd
    have hmap1 : List.map ExitEvent.id rest =
        ({ s with workerIds := spliceOutId s.workerIds e.id } : BrokerState).workerIds :=
      hsplice.symm
    obtain ⟨ihs, ihe, ihr⟩ :=
      ih { s with workerIds := spliceOutId s.workerIds e.id } hd1 hmap1
    simp only [processExits, honexit]
    refine ⟨?_, ?_, ?_⟩
    · simpa using ihs
    · simp [ihe]
    · simp [ihr]

/-- C1: pool-size invariant. Immediately after construction with
`workerCount = N` the pool holds exactly N ids; in every reachable state
(broker-driven transitions, application shutdown flag off) with
`drainOpen = false` the pool holds exactly N ids; a worker exit with the
gate closed replaces the id and preserves the size, so the pool shrinks
only under a transition taken while `drainOpen = true`, and neither drain
nor resume shrinks it. -/
theorem pool_size_invariant (N : Nat) :
    (initBroker N).workerIds.length = N ∧
    (∀ s : BrokerState, Reachable N s → s.drainOpen = false →
      s.workerIds.length = N) ∧
    (∀ (s : BrokerState) (e : ExitEvent), e.id ∈ s.workerIds → s.drainOpen = false →
      (onExit false s e).state.workerIds.length = s.workerIds.length) ∧
    (∀ (s : BrokerState) (e : ExitEvent), e.id ∈ s.workerIds →
      (onExit false s e).state.workerIds.length < s.workerIds.length →
      s.drainOpen = true) ∧
    (∀ (registry : List Nat) (s : BrokerState),
      (drainWorkers registry s).fst.workerIds.length = s.workerIds.length) ∧
    (∀ s : BrokerState, s.workerIds.length ≤ (resumeWorkers N s).workerIds.length) := by
  refine ⟨?_, ?_, ?_, ?_, ?_, ?_⟩
  · simp [initBroker, spawnLoop_workerIds_length]
  · intro s hs hd
    exact (reachable_invariant N s hs).2 hd
  · intro s e hmem hd
    exact onExit_nogate_length s e hd hmem
  · intro s e hmem hlt
    cases hd : s.drainOpen
    · rw [onExit_nogate_length s e hd hmem] at hlt
      exact absurd hlt (lt_irrefl _)
    · rfl
  · intro registry s
    rfl
  · intro s
    rw [resumeWorkers, spawnLoop_workerIds_length]
    simp

/-- C1 witness: with `workerCount = 2`, the freshly constructed broker is
reachable, its gate is closed, and the invariant yields pool size 2. -/
theorem pool_size_invariant_witness :
    (initBroker 2).drainOpen = false ∧ (initBroker 2).workerIds.length = 2 :=
  ⟨by decide, (pool_size_invariant 2).2.1 (initBroker 2) Reachable.init (by decide)⟩

/-- C2: a worker exit with `exitedAfterDisconnect` not true, observed while
the drain gate is closed and the application is not globally shutting down,
emits exactly one `worker_death` event for that id, files exactly one
diagnostic report, spawns exactly one replacement worker, and emits no
`worker_ended` for that id. -/
theorem crash_exit_behavior (s : BrokerState) (e : ExitEvent)
    (hgate : s.drainOpen = false) (hcrash : e.exitedAfterDisconnect = false) :
    (onExit false s e).events = [BrokerEvent.worker_death e.id e.code e.signal] ∧
    (onExit false s e).reports = 1 ∧
    (onExit false s e).state.workerIds = spliceOutId s.workerIds e.id ++ [s.nextId] ∧
    (onExit false s e).state.nextId = s.nextId + 1 ∧
    (∀ (c : Int) (sg : Option String),
      BrokerEvent.worker_ended e.id c sg ∉ (onExit false s e).events) := by
  rw [onExit_crash_eq s e hgate hcrash]
  refine ⟨rfl, rfl, rfl, rfl, ?_⟩
  intro c sg
  simp

/-- C2 witness: the sole worker of a fresh single-worker broker crashes; the
broker emits exactly one `worker_death` and files one report. -/
theorem crash_exit_behavior_witness :
    (onExit false (initBroker 1) ⟨1, 1, none, false⟩).events =
      [BrokerEvent.worker_death 1 1 none] ∧
    (onExit false (initBroker 1) ⟨1, 1, none, false⟩).reports = 1 :=
  ⟨(crash_exit_behavior (initBroker 1) ⟨1, 1, none, false⟩ (by decide) (by decide)).1,
   (crash_exit_behavior (initBroker 1) ⟨1, 1, none, false⟩ (by decide) (by decide)).2.1⟩

/-- C3 counterexample: bounce a worker that disconnects at 100 ms (well
before the 2000 ms deadline) and is still alive afterwards. The claim says
no further action is taken on that worker once the deadline timer is
cleared, but the disconnect observer's follow-up force-kills it at 1100 ms:
the list of kill actions is not empty. -/
theorem bounce_no_further_action_refuted :
    bounceKillTimes (some 100) neverDead = [1100] ∧
    bounceKillTimes (some 100) neverDead ≠ [] := by
  constructor <;> decide

/-- C3 amended: a bounced worker that never disconnects is force-killed at
the fixed 2000 ms deadline, and one that disconnects only at or after the
deadline has already been force-killed by it; when the disconnect fires
before the deadline the deadline timer is cleared (no kill comes from it),
but the disconnect observer arms a 1000 ms follow-up that force-kills the
worker exactly when it is still alive at that moment. -/
theorem bounce_timing (d : Nat) (isDeadAt : Nat → Bool) :
    bounceKillTimes none isDeadAt = [bounceTimeoutMs] ∧
    (bounceTimeoutMs ≤ d → bounceTimeoutMs ∈ bounceKillTimes (some d) isDeadAt) ∧
    (d < bounceTimeoutMs →
      bounceKillTimes (some d) isDeadAt =
        if isDeadAt (d + disconnectFollowupMs) then []
        else [d + disconnectFollowupMs]) := by
  refine ⟨rfl, ?_, ?_⟩
  · intro hle
    have hnlt : ¬ d < bounceTimeoutMs := not_lt.mpr hle
    simp [bounceKillTimes, hnlt]
  · intro hlt
    simp [bounceKillTimes, hlt]

/-- C3 witness: a worker bounced and disconnecting at 500 ms while never
dying on its own is force-killed by the follow-up at 1500 ms. -/
theorem bounce_timing_witness :
    bounceKillTimes (some 500) neverDead = [1500] := by
  have h := (bounce_timing 500 neverDead).2.2 (by decide)
  simpa [neverDead, disconnectFollowupMs] using h

/-- C4: `drainWorkers` sets `drainOpen = true` and then recycles the pool
(bouncing exactly its own current ids); processing the exits of all pooled
workers while the gate is open yields exactly one `worker_ended` per worker
(one event per pool member, never a `worker_death`), spawns no replacement
(`nextId` unchanged), and empties the pool. -/
theorem drain_semantics :
    (∀ (registry : List Nat) (s : BrokerState),
      (drainWorkers registry s).fst.drainOpen = true ∧
      (drainWorkers registry s).fst.workerIds = s.workerIds ∧
      (drainWorkers registry s).snd = recycleWorkers registry s.workerIds) ∧
    (∀ (gs : Bool) (s : BrokerState) (exits : List ExitEvent),
      s.drainOpen = true → exits.map ExitEvent.id = s.workerIds →
      (processExits gs s exits).state.workerIds = [] ∧
      (processExits gs s exits).state.nextId = s.nextId ∧
      (processExits gs s exits).events =
        exits.map (fun e => BrokerEvent.worker_ended e.id e.code e.signal) ∧
      (processExits gs s exits).events.length = s.workerIds.length ∧
      (∀ (i : Nat) (c : Int) (sg : Option String),
        BrokerEvent.worker_death i c sg ∉ (processExits gs s exits).events)) := by
  constructor
  · intro registry s
    exact ⟨rfl, rfl, rfl⟩
  · intro gs s exits hd hmap
    obtain ⟨hstate, hevents, _⟩ := processExits_drain gs exits s hd hmap
    refine ⟨?_, ?_, hevents, ?_, ?_⟩
    · rw [hstate]
    · rw [hstate]
    · rw [hevents, List.length_map, ← hmap, List.length_map]
    · intro i c sg hmem
      rw [hevents] at hmem
      obtain ⟨e, _, heq⟩ := List.mem_map.mp hmem
      cases heq

/-- C4 witness: draining a fresh single-worker broker and observing its sole
exit yields exactly one `worker_ended` and an empty pool. -/
theorem drain_semantics_witness :
    (processExits false (drainWorkers [1] (initBroker 1)).fst
        [⟨1, 0, none, true⟩]).state.workerIds = [] ∧
    (processExits false (drainWorkers [1] (initBroker 1)).fst
        [⟨1, 0, none, true⟩]).events = [BrokerEvent.worker_ended 1 0 none] := by
  have h := drain_semantics.2 false (drainWorkers [1] (initBroker 1)).fst
    [⟨1, 0, none, true⟩] (by decide) (by decide)
  exact ⟨h.1, h.2.2.1⟩

/-- C5: `resumeWorkers` sets `drainOpen = false` and spawns exactly
`workerCount - |workerIds|` fresh workers (none when the pool is already at
or above `workerCount`, which also leaves the pool untouched), bringing the
pool size to `workerCount` whenever it started at or below the target. -/
theorem resume_semantics (N : Nat) (s : BrokerState) :
    (resumeWorkers N s).drainOpen = false ∧
    (resumeWorkers N s).nextId = s.nextId + (N - s.workerIds.length) ∧
    (resumeWorkers N s).workerIds.length = max s.workerIds.length N ∧
    (s.workerIds.length ≤ N → (resumeWorkers N s).workerIds.length = N) ∧
    (N ≤ s.workerIds.length → (resumeWorkers N s).workerIds = s.workerIds) := by
  refine ⟨?_, ?_, ?_, ?_, ?_⟩
  · rw [resumeWorkers, spawnLoop_drainOpen]
  · rw [resumeWorkers, spawnLoop_nextId]
  · rw [resumeWorkers, spawnLoop_workerIds_length]
    simp only
    omega
  · intro hle
    rw [resumeWorkers, spawnLoop_workerIds_length]
    simp only
    omega
  · intro hge
    have hz : N - s.workerIds.length = 0 := Nat.sub_eq_zero_of_le hge
    rw [resumeWorkers, hz, spawnLoop]

/-- C5 witness: resuming a drained, emptied single-worker broker restores
the pool to one worker; resuming an already-full broker spawns none. -/
theorem resume_semantics_witness :
    (resumeWorkers 1 { workerIds := [], drainOpen := true, nextId := 2 }).workerIds.length
      = 1 ∧
    (resumeWorkers 1 (initBroker 1)).workerIds = (initBroker 1).workerIds :=
  ⟨(resume_semantics 1 { workerIds := [], drainOpen := true, nextId := 2 }).2.2.2.1
      (by decide),
   (resume_semantics 1 (initBroker 1)).2.2.2.2 (by decide)⟩

/-- C6: `recycleWorkers` bounces an id from the clustering facility's global
registry exactly when that id is also in this broker's own `workerIds`; ids
belonging to other brokers (or already removed) are never acted on. -/
theorem recycle_partition (registry mine : List Nat) (id : Nat) :
    id ∈ recycleWorkers registry mine ↔ id ∈ registry ∧ id ∈ mine := by
  simp [recycleWorkers, List.mem_filter, jsIndexOf_nonneg_iff]

/-- C6 witness: with two brokers sharing the registry `[1, 2]`, the broker
owning `[1]` bounces exactly worker 1 and not worker 2. -/
theorem recycle_partition_witness :
    (1 ∈ recycleWorkers [1, 2] [1]) ∧ ¬ (2 ∈ recycleWorkers [1, 2] [1]) :=
  ⟨(recycle_partition [1, 2] [1] 1).mpr (by decide),
   fun h => absurd ((recycle_partition [1, 2] [1] 2).mp h).2 (by decide)⟩

theorem isOpsEnvelope_iff (msg : JsValue) :
    isOpsEnvelope msg = true ↔
      ∃ fields, msg = JsValue.obj fields ∧
        fields.lookup "type" = some (JsValue.str "ops") := by
  cases msg with
  | str s => simp [isOpsEnvelope]
  | num n => simp [isOpsEnvelope]
  | boolV b => simp [isOpsEnvelope]
  | obj fields =>
    simp only [isOpsEnvelope, JsValue.obj.injEq, exists_eq_left']
    cases h : fields.lookup "type" with
    | none => simp [h]
    | some v =>
      cases v with
      | str s => simp [h]
      | num n => simp [h]
      | boolV b => simp [h]
      | obj f2 => simp [h]

/-- C7: the broker's message observer emits `worker_ops` exactly for
payloads that are objects whose `type` field is the string `"ops"`, and
forwards every other payload (plain strings included) verbatim as a
`worker_message` carrying the raw payload and the originating handle. -/
theorem message_dispatch :
    (∀ (w : Nat) (msg : JsValue),
      onMessage w msg = BrokerEvent.worker_ops msg w ↔
        ∃ fields, msg = JsValue.obj fields ∧
          fields.lookup "type" = some (JsValue.str "ops")) ∧
    (∀ (w : Nat) (s : String),
      onMessage w (JsValue.str s) = BrokerEvent.worker_message (JsValue.str s) w) ∧
    (∀ (w : Nat) (msg : JsValue), isOpsEnvelope msg = false →
      onMessage w msg = BrokerEvent.worker_message msg w) := by
  refine ⟨?_, ?_, ?_⟩
  · intro w msg
    rw [← isOpsEnvelope_iff]
    by_cases h : isOpsEnvelope msg <;> simp [onMessage, h]
  · intro w s
    simp [onMessage, isOpsEnvelope]
  · intro w msg h
    simp [onMessage, h]

/-- C7 witness: a plain string is forwarded verbatim as `worker_message`,
and an ops envelope is emitted as `worker_ops`. -/
theorem message_dispatch_witness :
    onMessage 1 (JsValue.str "Reporting for duty") =
      BrokerEvent.worker_message (JsValue.str "Reporting for duty") 1 ∧
    onMessage 1 (JsValue.obj [("type", JsValue.str "ops")]) =
      BrokerEvent.worker_ops (JsValue.obj [("type", JsValue.str "ops")]) 1 :=
  ⟨(message_dispatch.2.2 1 (JsValue.str "Reporting for duty") (by decide)),
   (message_dispatch.1 1 (JsValue.obj [("type", JsValue.str "ops")])).mpr
     ⟨[("type", JsValue.str "ops")], rfl, rfl⟩⟩

/-- C8 counterexample: the parent-to-child message that begins graceful
shutdown is not the string "shutdown" — the broker never sends it, and the
worker runtime's message listener does not invoke `prepareForShutdown` on
it. -/
theorem shutdown_directive_refuted :
    bounceDirective ≠ "shutdown" ∧ workerInvokesShutdownOn "shutdown" = false := by
  constructor <;> decide

/-- C8 amended: the only mandatory parent-to-child directive — sent by
`_bounceWorker` during a bounce and the only message the worker runtime's
listener reacts to — is the string "suicide". -/
theorem shutdown_directive :
    bounceDirective = "suicide" ∧
    ∀ m : String, workerInvokesShutdownOn m = true ↔ m = bounceDirective := by
  refine ⟨rfl, fun m => ?_⟩
  simp [workerInvokesShutdownOn, bounceDirective]

/-- C9: receipt of the parent's shutdown directive, SIGINT, and SIGTERM all
invoke the same `prepareForShutdown()` operation, so all three triggers
produce the identical shutdown behavior (unbind the signal handlers, then
terminate the process with success status). -/
theorem unified_shutdown_path :
    handleTrigger (ShutdownTrigger.directive bounceDirective) = workerPrepareForShutdown ∧
    handleTrigger ShutdownTrigger.sigint = workerPrepareForShutdown ∧
    handleTrigger ShutdownTrigger.sigterm = workerPrepareForShutdown ∧
    handleTrigger ShutdownTrigger.sigint =
      handleTrigger (ShutdownTrigger.directive bounceDirective) ∧
    handleTrigger ShutdownTrigger.sigterm = handleTrigger ShutdownTrigger.sigint ∧
    workerPrepareForShutdown =
      [WorkerAction.unbindSignals, WorkerAction.exitProcess 0] := by
  refine ⟨?_, rfl, rfl, ?_, rfl, rfl⟩ <;> decide

/-- C10: the exit observer's id removal `splice(indexOf(id), 1)` removes
exactly the first occurrence of the id when it is present (its correctness
precondition); when the id is absent from a nonempty list, `indexOf`
returns -1 and the splice removes the most recently spawned (last) id
rather than leaving the list unchanged. -/
theorem splice_removal_semantics :
    (∀ (l : List Nat) (id : Nat), id ∈ l → spliceOutId l id = l.erase id) ∧
    (∀ (l : List Nat) (id : Nat), id ∈ l → (spliceOutId l id).length + 1 = l.length) ∧
    (∀ (l : List Nat) (id : Nat), id ∉ l → l ≠ [] → spliceOutId l id = l.dropLast) ∧
    (∀ (l : List Nat) (id : Nat), id ∉ l → l ≠ [] → spliceOutId l id ≠ l) := by
  refine ⟨?_, ?_, ?_, ?_⟩
  · intro l id h
    exact spliceOutId_of_mem h
  · intro l id h
    have h1 : 1 ≤ l.length := List.length_pos.mpr (List.ne_nil_of_mem h)
    have h2 := length_spliceOutId_of_mem h
    omega
  · intro l id h hne
    exact spliceOutId_of_not_mem h hne
  · intro l id h hne heq
    rw [spliceOutId_of_not_mem h hne] at heq
    have h1 : 1 ≤ l.length := List.length_pos.mpr hne
    have h2 : l.dropLast.length = l.length - 1 := List.length_dropLast l
    rw [heq] at h2
    omega

/-- C10 witness: removing the present id 7 from `[4, 7, 9]` yields `[4, 9]`,
while attempting to remove the absent id 11 silently drops the most
recently spawned id 9 instead of leaving the list unchanged. -/
theorem splice_removal_semantics_witness :
    spliceOutId [4, 7, 9] 7 = List.erase [4, 7, 9] 7 ∧
    spliceOutId [4, 7, 9] 11 = List.dropLast [4, 7, 9] ∧
    spliceOutId [4, 7, 9] 11 ≠ [4, 7, 9] :=
  ⟨splice_removal_semantics.1 [4, 7, 9] 7 (by decide),
   splice_removal_semantics.2.2.1 [4, 7, 9] 11 (by decide) (by decide),
   splice_removal_semantics.2.2.2 [4, 7, 9] 11 (by decide) (by decide)⟩
